import Mathlib

/-!
Verification of the metareview tool (`src/metareview.py`).

The development shallowly embeds the parts of the program the claims are
about: the JSON-like record values produced by the record loader
(`load_patchset`), the pagination driver (`GerritClient.comments_query` and
its asynchronous twin `GerritAsyncClient.comments_query`), the identity
filter (`user_match`) and the comment extractor (`extract_comments`).

Modelling choices, shared by every definition below:

* JSON values are modelled by `Value`.  The numbers occurring in this
  protocol (`rowCount`, `timestamp`) are integral, so JSON numbers are
  modelled as `Int` (Python `bool` is an `int` subtype, hence `asInt?`
  accepts booleans as well).  Objects are association lists in insertion
  order; key lookup takes the first binding, which agrees with Python
  dictionaries whose keys are unique.
* The remote channel (paramiko / asyncssh) is an excluded collaborator.  A
  run of the driver is therefore parametrised by the decoded line streams
  the channel would produce: `pages k` is the result of applying
  `load_patchset` (that is, `json.loads`) to each line of the output of the
  k-th command executed; a line on which `json.loads` raises is
  `LineResult.malformed`.
* Python generators are modelled by the full trace a consumer that drives
  the generator to its end observes: the commands issued (their start
  offsets and full command strings), the records yielded, and how the
  traversal ended.  Records yielded before an exception was raised have
  already been seen by the consumer and stay in the trace.
* The `while True` pagination loop need not terminate on arbitrary inputs,
  so the loop recursion is bounded by explicit fuel; `Outcome.fuelOut`
  marks an analysis horizon that was reached, never a behaviour of the
  program.
-/

/-- JSON-like value as decoded by the record loader.  Objects are
association lists in insertion order.  Numbers of this protocol are
integers (see the header comment). -/
inductive Value where
  | null : Value
  | bool (b : Bool) : Value
  | int (n : Int) : Value
  | str (s : String) : Value
  | arr (elems : List Value) : Value
  | obj (fields : List (String × Value)) : Value

/-- Python `record[key]` / `key in record` on a decoded object: look the key
up in the association list.  On a non-object the protocol records in the
claims never reach a key lookup; `none` (key absent) is returned. -/
def Value.get? : Value → String → Option Value
  | .obj fields, key => fields.lookup key
  | _, _ => none

/-- Python truthiness (`if not v`) of a decoded JSON value. -/
def Value.truthy : Value → Bool
  | .null => false
  | .bool b => b
  | .int n => n != 0
  | .str s => s != ""
  | .arr elems => !elems.isEmpty
  | .obj fields => !fields.isEmpty

/-- Value usable by Python `count += v` where `count` is an `int`: an
integer, or a boolean (Python `bool` is an `int`).  Anything else raises
`TypeError`. -/
def Value.asInt? : Value → Option Int
  | .int n => some n
  | .bool b => some (if b then 1 else 0)
  | _ => none

/-- Python `v == filterStr` for a decoded value against a string: string
values compare by string equality, any other value is `!=` to a string. -/
def valEqStr : Value → String → Bool
  | .str s, u => s == u
  | _, _ => false

/-- Python `'type' in record and record['type'] == 'stats'`: the record is a
pagination-control ("stats") record. -/
def isStats (record : Value) : Bool :=
  match record.get? "type" with
  | some v => valEqStr v "stats"
  | none => false

/-- Python `record.get('moreChanges', False)`. -/
def moreChangesVal (record : Value) : Value :=
  (record.get? "moreChanges").getD (.bool false)

/-- Errors that can propagate out of the embedded code: `json.JSONDecodeError`
from `load_patchset`, `KeyError` from a `record[key]` lookup on a missing
key, `TypeError` from using a value at the wrong type. -/
inductive DriverError where
  | malformedRecord : DriverError
  | keyError : DriverError
  | typeError : DriverError
deriving DecidableEq

/-- One line of remote output, after the external `json.loads` has been
applied: either a decoded record or a line that failed to decode. -/
inductive LineResult where
  | ok (record : Value) : LineResult
  | malformed : LineResult

/-- Record loader (`load_patchset`, line 184): decode one line.  The JSON
parser itself is the excluded `json` library, so a line arrives together
with its decode outcome (`LineResult`); `load_patchset` exposes that
outcome as a value or a raised `MalformedRecordError`. -/
def load_patchset : LineResult → Except DriverError Value
  | .ok record => .ok record
  | .malformed => .error .malformedRecord

/-- How the traversal of a single page's line stream ended. -/
inductive PageExit where
  | exhausted : PageExit
  | finished : PageExit
  | error (e : DriverError) : PageExit
deriving DecidableEq

/-- Result of consuming one page's line stream: the content records yielded
(in order), the offset counter after the page, and how the traversal ended. -/
structure PageResult where
  yielded : List Value
  count : Int
  exit : PageExit

/-- How a full run of `comments_query` ended.  `finished` is the `return` on
a trailer without more changes, `stopped` is the `break` on a page with no
progress — both are a normal end of iteration for the consumer.
`pageError` is an exception propagating out of the generator.  `fuelOut`
marks the analysis fuel running out (see the header comment). -/
inductive Outcome where
  | finished : Outcome
  | stopped : Outcome
  | pageError (e : DriverError) : Outcome
  | fuelOut : Outcome
deriving DecidableEq

/-- Trace of a full run of `comments_query`, as observed by a consumer that
drives the generator to its end: the start offsets used (one per page
fetched, in order), the command strings executed, the records yielded, and
the outcome. -/
structure QueryResult where
  starts : List Int
  cmds : List String
  yielded : List Value
  outcome : Outcome

/-- Python `' '.join(':'.join(param) for param in query.items())` (lines 67
and 142): serialize the query parameters.  Keyword arguments iterate in
insertion order, modelled by a list of pairs. -/
def qStr (query : List (String × String)) : String :=
  String.intercalate " " (query.map fun param => String.intercalate ":" [param.1, param.2])

/-- The remote command string built on lines 72-76 (and 147-151): the five
pieces joined by single spaces, the query string quoted as one argument,
the current offset formatted into `--start=`. -/
def queryCmd (q_str : String) (count : Int) : String :=
  String.intercalate " " ["gerrit query",
                          "\"" ++ q_str ++ "\"",
                          "--comments",
                          "--format=JSON",
                          "--start=" ++ toString count]

namespace GerritClient

/-- The inner `for record in map(load_patchset, stdout)` loop of
`GerritClient.comments_query` (lines 81-87), consuming one page's line
stream with the offset counter at `count`.  A stats record without truthy
`moreChanges` is the `return` (exit `finished`); a stats record with truthy
`moreChanges` advances the counter by its `rowCount` (raising `KeyError`
when the field is missing and `TypeError` when it is not a number); any
other record is yielded.  A line `json.loads` rejects raises out of the
loop. -/
def processPage (count : Int) : List LineResult → PageResult
  | [] => ⟨[], count, .exhausted⟩
  | line :: rest =>
    match load_patchset line with
    | .error e => ⟨[], count, .error e⟩
    | .ok record =>
      if isStats record then
        if !(moreChangesVal record).truthy then
          ⟨[], count, .finished⟩
        else
          match record.get? "rowCount" with
          | none => ⟨[], count, .error .keyError⟩
          | some v =>
            match v.asInt? with
            | none => ⟨[], count, .error .typeError⟩
            | some n => processPage (count + n) rest
      else
        let r := processPage count rest
        ⟨record :: r.yielded, r.count, r.exit⟩

/-- The `while True` pagination loop of `GerritClient.comments_query`
(lines 70-89): issue the command for the current offset, consume the page,
and either finish (`return`), propagate an error, stop when the offset did
not advance (`break`), or loop with the new offset.  `fuel` bounds the
number of pages the analysis follows. -/
def runLoop (pages : Nat → List LineResult) (q_str : String) :
    Nat → Nat → Int → QueryResult
  | 0, _, _ => ⟨[], [], [], .fuelOut⟩
  | fuel + 1, idx, count =>
    let pr := processPage count (pages idx)
    match pr.exit with
    | .finished => ⟨[count], [queryCmd q_str count], pr.yielded, .finished⟩
    | .error e => ⟨[count], [queryCmd q_str count], pr.yielded, .pageError e⟩
    | .exhausted =>
      if pr.count = count then
        ⟨[count], [queryCmd q_str count], pr.yielded, .stopped⟩
      else
        let r := runLoop pages q_str fuel (idx + 1) pr.count
        ⟨count :: r.starts, queryCmd q_str count :: r.cmds,
         pr.yielded ++ r.yielded, r.outcome⟩

/-- Synchronous `GerritClient.comments_query` (lines 61-89): serialize the
query, start the offset counter at 0 and run the pagination loop.  `pages`
gives the decoded line stream each successive command execution would
produce. -/
def comments_query (pages : Nat → List LineResult)
    (query : List (String × String)) (fuel : Nat) : QueryResult :=
  runLoop pages (qStr query) fuel 0 0

end GerritClient

namespace GerritAsyncClient

/-- The inner `async for line in output.stdout` loop of
`GerritAsyncClient.comments_query` (lines 155-162): each line is decoded
with `load_patchset` and handled exactly as in the synchronous client. -/
def processPage (count : Int) : List LineResult → PageResult
  | [] => ⟨[], count, .exhausted⟩
  | line :: rest =>
    match load_patchset line with
    | .error e => ⟨[], count, .error e⟩
    | .ok record =>
      if isStats record then
        if !(moreChangesVal record).truthy then
          ⟨[], count, .finished⟩
        else
          match record.get? "rowCount" with
          | none => ⟨[], count, .error .keyError⟩
          | some v =>
            match v.asInt? with
            | none => ⟨[], count, .error .typeError⟩
            | some n => processPage (count + n) rest
      else
        let r := processPage count rest
        ⟨record :: r.yielded, r.count, r.exit⟩

/-- The `while True` pagination loop of `GerritAsyncClient.comments_query`
(lines 145-164); the `if count == prior_count: break` sits inside the
`async with` block, which does not change the trace. -/
def runLoop (pages : Nat → List LineResult) (q_str : String) :
    Nat → Nat → Int → QueryResult
  | 0, _, _ => ⟨[], [], [], .fuelOut⟩
  | fuel + 1, idx, count =>
    let pr := processPage count (pages idx)
    match pr.exit with
    | .finished => ⟨[count], [queryCmd q_str count], pr.yielded, .finished⟩
    | .error e => ⟨[count], [queryCmd q_str count], pr.yielded, .pageError e⟩
    | .exhausted =>
      if pr.count = count then
        ⟨[count], [queryCmd q_str count], pr.yielded, .stopped⟩
      else
        let r := runLoop pages q_str fuel (idx + 1) pr.count
        ⟨count :: r.starts, queryCmd q_str count :: r.cmds,
         pr.yielded ++ r.yielded, r.outcome⟩

/-- Asynchronous `GerritAsyncClient.comments_query` (lines 136-164). -/
def comments_query (pages : Nat → List LineResult)
    (query : List (String × String)) (fuel : Nat) : QueryResult :=
  runLoop pages (qStr query) fuel 0 0

end GerritAsyncClient

/-- The `rowCount` values the driver adds to the offset counter while
consuming one page's line stream, in the order it sees them: one per stats
record with truthy `moreChanges`, collected exactly as far as
`GerritClient.processPage` walks the stream (a terminating stats record, a
malformed line, or a `rowCount` the addition rejects cuts the traversal
short). -/
def seenRowCounts : List LineResult → List Int
  | [] => []
  | line :: rest =>
    match load_patchset line with
    | .error _ => []
    | .ok record =>
      if isStats record then
        if !(moreChangesVal record).truthy then []
        else
          match record.get? "rowCount" with
          | none => []
          | some v =>
            match v.asInt? with
            | none => []
            | some n => n :: seenRowCounts rest
      else seenRowCounts rest

/-- One page line satisfying the data-model precondition of claim C10: a
control record with truthy `moreChanges` carries an integer `rowCount`
field.  Lines that are not such control records are unconstrained. -/
def goodLine : LineResult → Bool
  | .malformed => true
  | .ok record =>
    if isStats record && (moreChangesVal record).truthy then
      match record.get? "rowCount" with
      | some (.int _) => true
      | _ => false
    else true

/-- Boolean test that `needle` is a leading piece of `hay` (used to express
Python substring containment over character lists). -/
def charsLead : List Char → List Char → Bool
  | [], _ => true
  | _ :: _, [] => false
  | a :: as, b :: bs => a == b && charsLead as bs

/-- Python `needle in hay` for strings: `needle` occurs contiguously
somewhere in `hay`. -/
def strContainsSub (needle hay : String) : Bool :=
  go needle.toList hay.toList
where
  go (n : List Char) : List Char → Bool
    | [] => charsLead n []
    | c :: rest => charsLead n (c :: rest) || go n rest

/-- The literal marker text of auto-generated rebase comments (line 230). -/
def trivialRebaseMarker : String := "Gerrit trivial rebase"

/-- The inner `field_match` of `user_match` (lines 206-209): the field must
be present and equal (as a Python `==` against the filter string). -/
def field_match (user : Value) (username : String) (field : String) : Bool :=
  match user.get? field with
  | none => false
  | some v => valEqStr v username

/-- Identity filter `user_match` (lines 196-211): `None` matches every
user; otherwise compare the filter against the `email` field when the
filter contains `'@'` (Python substring test, here a one-character
membership) and against the `username` field otherwise. -/
def user_match (user : Value) (username : Option String) : Bool :=
  match username with
  | none => true
  | some u => field_match user u (if u.toList.contains '@' then "email" else "username")

/-- The comment loop of `extract_comments` (lines 228-233): a comment whose
reviewer matches the filter is yielded unless its message contains the
trivial-rebase marker.  `comment['reviewer']` and `comment['message']` are
unguarded lookups (`KeyError` when missing); the `in` test needs a text
message (a non-text message is outside the protocol and modelled as the
type-error case).  Records yielded before a raise
stay in the trace, paired with the raised error. -/
def extractLoop (author : Option String) : List Value → List Value × Option DriverError
  | [] => ([], none)
  | comment :: rest =>
    match comment.get? "reviewer" with
    | none => ([], some .keyError)
    | some reviewer =>
      if user_match reviewer author then
        match comment.get? "message" with
        | none => ([], some .keyError)
        | some (.str msg) =>
          if strContainsSub trivialRebaseMarker msg then extractLoop author rest
          else
            let r := extractLoop author rest
            (comment :: r.1, r.2)
        | some _ => ([], some .typeError)
      else extractLoop author rest

/-- Python `for comment in patchset['comments']` (line 228): the comments
value must be a sequence to iterate over comments. -/
def iterComments (author : Option String) : Value → List Value × Option DriverError
  | .arr comments => extractLoop author comments
  | _ => ([], some .typeError)

/-- Comment extractor `extract_comments` (lines 214-233): no `comments`
field means an empty sequence; a non-`None` author matching the record's
owner means an empty sequence; otherwise run the comment loop. -/
def extract_comments (patchset : Value) (author : Option String) :
    List Value × Option DriverError :=
  match patchset.get? "comments" with
  | none => ([], none)
  | some comments =>
    match author with
    | none => iterComments none comments
    | some a =>
      match patchset.get? "owner" with
      | none => ([], some .keyError)
      | some owner =>
        if user_match owner (some a) then ([], none)
        else iterComments (some a) comments

/-- Comment whose message carries the trivial-rebase marker (the exclusion
test of claim C5, defined on the comment's decoded `message` field). -/
def hasTrivialRebase (comment : Value) : Bool :=
  match comment.get? "message" with
  | some (.str msg) => strContainsSub trivialRebaseMarker msg
  | _ => false

/-- Comment shaped as the data model requires for claim C5: a `reviewer`
field is present (any value) and the `message` field is a string. -/
def wfComment (comment : Value) : Bool :=
  (comment.get? "reviewer").isSome &&
    (match comment.get? "message" with
     | some (.str _) => true
     | _ => false)

/-- The field-selection rule of claim C4 as amended, written from the
spec's words: a string filter selects `email` when it contains `'@'` and
`username` otherwise, compares for equality, and a missing field never
matches. -/
def selectedFieldMatch (user : Value) (filterStr : String) : Bool :=
  match user.get? (if filterStr.toList.contains '@' then "email" else "username") with
  | none => false
  | some v => valEqStr v filterStr

/-- Concrete content record used by the concrete-input corollaries. -/
def recUrl1 : Value := .obj [("url", .str "https://review.example/1")]

/-- Concrete trailer reporting no further changes. -/
def trailerStop : Value :=
  .obj [("type", .str "stats"), ("rowCount", .int 2), ("moreChanges", .bool false)]

/-- Concrete trailer reporting one more row and further changes. -/
def trailerMore1 : Value :=
  .obj [("type", .str "stats"), ("rowCount", .int 1), ("moreChanges", .bool true)]

/-- Concrete trailer with further changes but no `rowCount` field. -/
def trailerNoRow : Value :=
  .obj [("type", .str "stats"), ("moreChanges", .bool true)]

/-- Pages whose first trailer stops pagination. -/
def pagesFinish : Nat → List LineResult := fun _ => [.ok recUrl1, .ok trailerStop]

/-- Pages that always report one more change. -/
def pagesMore : Nat → List LineResult := fun _ => [.ok recUrl1, .ok trailerMore1]

/-- Pages with one content record and no trailer at all. -/
def pagesNoTrailer : Nat → List LineResult := fun _ => [.ok recUrl1]

/-- Pages whose second line fails to decode. -/
def pagesBad : Nat → List LineResult := fun _ => [.ok recUrl1, .malformed]

/-- Pages whose trailer reports further changes but carries no `rowCount`. -/
def pagesNoRow : Nat → List LineResult := fun _ => [.ok recUrl1, .ok trailerNoRow]

/-- Concrete user with both identity fields. -/
def aliceUser : Value :=
  .obj [("email", .str "alice@example.com"), ("username", .str "alice")]

/-- Concrete reviewer user for sample comments. -/
def bobUser : Value := .obj [("username", .str "bob")]

/-- Concrete substantive comment. -/
def commentNice : Value :=
  .obj [("reviewer", bobUser), ("message", .str "nice work")]

/-- Concrete auto-generated rebase comment. -/
def commentRebase : Value :=
  .obj [("reviewer", bobUser), ("message", .str "Gerrit trivial rebase detected")]

/-- Concrete patchset owned by `aliceUser` with two comments. -/
def patchsetSample : Value :=
  .obj [("owner", aliceUser), ("comments", .arr [commentNice, commentRebase])]

/-- Concrete patchset without a `comments` field. -/
def patchsetBare : Value := .obj [("url", .str "https://review.example/2")]

/-! ### Lemmas about consuming a single page -/

theorem processPage_count (lines : List LineResult) :
    ∀ count : Int,
      (GerritClient.processPage count lines).count = count + (seenRowCounts lines).sum := by
  induction lines with
  | nil => intro count; simp [GerritClient.processPage, seenRowCounts]
  | cons line rest ih =>
    intro count
    cases line with
    | malformed =>
      simp [GerritClient.processPage, seenRowCounts, load_patchset]
    | ok record =>
      simp only [GerritClient.processPage, seenRowCounts, load_patchset]
      by_cases hs : isStats record = true
      · by_cases hm : (moreChangesVal record).truthy = true
        · cases hrc : record.get? "rowCount" with
          | none => simp [hs, hm, hrc]
          | some v =>
            cases hv : v.asInt? with
            | none => simp [hs, hm, hrc, hv]
            | some n =>
              simp only [hs, hm, hrc, hv, if_true, Bool.not_true, Bool.false_eq_true,
                if_false, List.sum_cons]
              rw [ih]
              ring
        · simp [hs, hm]
      · simp [hs, ih]

theorem processPage_append (pre rest : List LineResult) :
    ∀ count : Int, (GerritClient.processPage count pre).exit = .exhausted →
      GerritClient.processPage count (pre ++ rest) =
        ⟨(GerritClient.processPage count pre).yielded ++
           (GerritClient.processPage (GerritClient.processPage count pre).count rest).yielded,
         (GerritClient.processPage (GerritClient.processPage count pre).count rest).count,
         (GerritClient.processPage (GerritClient.processPage count pre).count rest).exit⟩ := by
  induction pre with
  | nil => intro count _; simp [GerritClient.processPage]
  | cons line pr ih =>
    intro count hex
    cases line with
    | malformed =>
      simp [GerritClient.processPage, load_patchset] at hex
    | ok record =>
      simp only [GerritClient.processPage, load_patchset, List.cons_append] at hex ⊢
      by_cases hs : isStats record = true
      · by_cases hm : (moreChangesVal record).truthy = true
        · cases hrc : record.get? "rowCount" with
          | none => simp [hs, hm, hrc] at hex
          | some v =>
            cases hv : v.asInt? with
            | none => simp [hs, hm, hrc, hv] at hex
            | some n =>
              simp only [hs, hm, hrc, hv, if_true, Bool.not_true, Bool.false_eq_true,
                if_false] at hex ⊢
              exact ih (count + n) hex
        · simp [hs, hm] at hex
      · simp only [hs, Bool.false_eq_true, if_false] at hex ⊢
        rw [show pr.append rest = pr ++ rest from rfl, ih count hex]
        simp

theorem processPage_good (lines : List LineResult) (hg : ∀ l ∈ lines, goodLine l = true) :
    ∀ count : Int,
      (GerritClient.processPage count lines).exit ≠ .error .keyError ∧
      (GerritClient.processPage count lines).exit ≠ .error .typeError := by
  induction lines with
  | nil => intro count; simp [GerritClient.processPage]
  | cons line rest ih =>
    intro count
    have hghd : goodLine line = true := hg line (List.mem_cons_self line rest)
    have hgtl : ∀ l ∈ rest, goodLine l = true := fun l hl => hg l (List.mem_cons_of_mem line hl)
    cases line with
    | malformed =>
      simp [GerritClient.processPage, load_patchset]
    | ok record =>
      simp only [GerritClient.processPage, load_patchset]
      by_cases hs : isStats record = true
      · by_cases hm : (moreChangesVal record).truthy = true
        · have : ∃ n : Int, record.get? "rowCount" = some (.int n) := by
            simp only [goodLine, hs, hm, Bool.and_self, if_true] at hghd
            cases hrc : record.get? "rowCount" with
            | none => rw [hrc] at hghd; exact absurd hghd (by simp)
            | some v =>
              cases v <;> rw [hrc] at hghd <;> simp at hghd
              case int n => exact ⟨n, rfl⟩
          obtain ⟨n, hrc⟩ := this
          simp only [hs, hm, hrc, if_true, Bool.not_true, Bool.false_eq_true, if_false,
            Value.asInt?]
          exact ih hgtl (count + n)
        · simp [hs, hm]
      · simp only [hs, Bool.false_eq_true, if_false]
        have := ih hgtl count
        simpa using this

theorem processPage_async_eq (lines : List LineResult) :
    ∀ count : Int,
      GerritAsyncClient.processPage count lines = GerritClient.processPage count lines := by
  induction lines with
  | nil => intro count; rfl
  | cons line rest ih =>
    intro count
    cases line with
    | malformed => rfl
    | ok record =>
      simp only [GerritAsyncClient.processPage, GerritClient.processPage, load_patchset]
      by_cases hs : isStats record = true
      · by_cases hm : (moreChangesVal record).truthy = true
        · cases hrc : record.get? "rowCount" with
          | none => simp [hs, hm, hrc]
          | some v =>
            cases hv : v.asInt? with
            | none => simp [hs, hm, hrc, hv]
            | some n => simp [hs, hm, hrc, hv, ih]
        · simp [hs, hm]
      · simp [hs, ih]

/-! ### Lemmas about the pagination loop -/

theorem runLoop_step_finished (P : Nat → List LineResult) (q : String) (fuel idx : Nat)
    (count : Int) (h : (GerritClient.processPage count (P idx)).exit = .finished) :
    GerritClient.runLoop P q (fuel + 1) idx count =
      ⟨[count], [queryCmd q count],
       (GerritClient.processPage count (P idx)).yielded, .finished⟩ := by
  simp only [GerritClient.runLoop]
  rw [h]

theorem runLoop_step_error (P : Nat → List LineResult) (q : String) (fuel idx : Nat)
    (count : Int) (e : DriverError)
    (h : (GerritClient.processPage count (P idx)).exit = .error e) :
    GerritClient.runLoop P q (fuel + 1) idx count =
      ⟨[count], [queryCmd q count],
       (GerritClient.processPage count (P idx)).yielded, .pageError e⟩ := by
  simp only [GerritClient.runLoop]
  rw [h]

theorem runLoop_step_stop (P : Nat → List LineResult) (q : String) (fuel idx : Nat)
    (count : Int) (h : (GerritClient.processPage count (P idx)).exit = .exhausted)
    (hc : (GerritClient.processPage count (P idx)).count = count) :
    GerritClient.runLoop P q (fuel + 1) idx count =
      ⟨[count], [queryCmd q count],
       (GerritClient.processPage count (P idx)).yielded, .stopped⟩ := by
  simp only [GerritClient.runLoop]
  rw [h]
  simp [hc]

theorem runLoop_step_next (P : Nat → List LineResult) (q : String) (fuel idx : Nat)
    (count : Int) (h : (GerritClient.processPage count (P idx)).exit = .exhausted)
    (hc : (GerritClient.processPage count (P idx)).count ≠ count) :
    GerritClient.runLoop P q (fuel + 1) idx count =
      ⟨count ::
         (GerritClient.runLoop P q fuel (idx + 1)
           (GerritClient.processPage count (P idx)).count).starts,
       queryCmd q count ::
         (GerritClient.runLoop P q fuel (idx + 1)
           (GerritClient.processPage count (P idx)).count).cmds,
       (GerritClient.processPage count (P idx)).yielded ++
         (GerritClient.runLoop P q fuel (idx + 1)
           (GerritClient.processPage count (P idx)).count).yielded,
       (GerritClient.runLoop P q fuel (idx + 1)
         (GerritClient.processPage count (P idx)).count).outcome⟩ := by
  simp only [GerritClient.runLoop]
  rw [h]
  simp [hc]

theorem runLoop_starts_formula (P : Nat → List LineResult) (q : String) :
    ∀ (fuel idx : Nat) (count : Int) (k : Nat),
      k < (GerritClient.runLoop P q fuel idx count).starts.length →
      (GerritClient.runLoop P q fuel idx count).starts.getD k 0 =
        count + ((List.range k).map fun i => (seenRowCounts (P (idx + i))).sum).sum := by
  intro fuel
  induction fuel with
  | zero =>
    intro idx count k hk
    simp [GerritClient.runLoop] at hk
  | succ fuel ih =>
    intro idx count k hk
    rcases hex : (GerritClient.processPage count (P idx)).exit with _ | _ | e
    · by_cases hc : (GerritClient.processPage count (P idx)).count = count
      · rw [runLoop_step_stop P q fuel idx count hex hc] at hk ⊢
        simp only [List.length_singleton, Nat.lt_one_iff] at hk
        subst hk
        simp
      · rw [runLoop_step_next P q fuel idx count hex hc] at hk ⊢
        cases k with
        | zero => simp
        | succ k =>
          simp only [List.length_cons, Nat.succ_lt_succ_iff] at hk
          rw [List.getD_cons_succ]
          rw [ih (idx + 1) (GerritClient.processPage count (P idx)).count k hk]
          rw [processPage_count]
          rw [List.range_succ_eq_map, List.map_cons, List.map_map, List.sum_cons]
          have harg : ((List.range k).map fun i => (seenRowCounts (P (idx + 1 + i))).sum) =
              (List.range k).map ((fun i => (seenRowCounts (P (idx + i))).sum) ∘ Nat.succ) := by
            apply List.map_congr_left
            intro i _
            simp only [Function.comp_apply]
            have hidx : idx + 1 + i = idx + Nat.succ i := by omega
            rw [hidx]
          rw [harg]
          simp only [Nat.add_zero]
          ring
    · rw [runLoop_step_finished P q fuel idx count hex] at hk ⊢
      simp only [List.length_singleton, Nat.lt_one_iff] at hk
      subst hk
      simp
    · rw [runLoop_step_error P q fuel idx count e hex] at hk ⊢
      simp only [List.length_singleton, Nat.lt_one_iff] at hk
      subst hk
      simp

theorem runLoop_cmds_eq (P : Nat → List LineResult) (q : String) :
    ∀ (fuel idx : Nat) (count : Int),
      (GerritClient.runLoop P q fuel idx count).cmds =
        (GerritClient.runLoop P q fuel idx count).starts.map (queryCmd q) := by
  intro fuel
  induction fuel with
  | zero => intro idx count; simp [GerritClient.runLoop]
  | succ fuel ih =>
    intro idx count
    rcases hex : (GerritClient.processPage count (P idx)).exit with _ | _ | e
    · by_cases hc : (GerritClient.processPage count (P idx)).count = count
      · rw [runLoop_step_stop P q fuel idx count hex hc]
        simp
      · rw [runLoop_step_next P q fuel idx count hex hc]
        simp [ih]
    · rw [runLoop_step_finished P q fuel idx count hex]
      simp
    · rw [runLoop_step_error P q fuel idx count e hex]
      simp

theorem runLoop_terminal (P : Nat → List LineResult) (q : String) :
    ∀ (fuel idx : Nat) (count : Int) (k : Nat) (s : Int),
      k < (GerritClient.runLoop P q fuel idx count).starts.length →
      (GerritClient.runLoop P q fuel idx count).starts.getD k 0 = s →
      (((GerritClient.processPage s (P (idx + k))).exit = .finished →
          (GerritClient.runLoop P q fuel idx count).outcome = .finished ∧
          (GerritClient.runLoop P q fuel idx count).starts.length = k + 1) ∧
       (∀ e, (GerritClient.processPage s (P (idx + k))).exit = .error e →
          (GerritClient.runLoop P q fuel idx count).outcome = .pageError e ∧
          (GerritClient.runLoop P q fuel idx count).starts.length = k + 1) ∧
       ((GerritClient.processPage s (P (idx + k))).exit = .exhausted →
          (GerritClient.processPage s (P (idx + k))).count = s →
          (GerritClient.runLoop P q fuel idx count).outcome = .stopped ∧
          (GerritClient.runLoop P q fuel idx count).starts.length = k + 1)) := by
  intro fuel
  induction fuel with
  | zero =>
    intro idx count k s hk hs
    simp [GerritClient.runLoop] at hk
  | succ fuel ih =>
    intro idx count k s hk hs
    rcases hex : (GerritClient.processPage count (P idx)).exit with _ | _ | e
    · by_cases hc : (GerritClient.processPage count (P idx)).count = count
      · rw [runLoop_step_stop P q fuel idx count hex hc] at hk hs ⊢
        simp only [List.length_singleton, Nat.lt_one_iff] at hk
        subst hk
        simp only [List.getD_cons_zero] at hs
        subst hs
        simp only [Nat.add_zero]
        refine ⟨fun h => absurd (hex ▸ h) (by simp), fun e h => absurd (hex ▸ h) (by simp),
          fun _ _ => ⟨trivial, by simp⟩⟩
      · rw [runLoop_step_next P q fuel idx count hex hc] at hk hs ⊢
        cases k with
        | zero =>
          simp only [List.getD_cons_zero] at hs
          subst hs
          simp only [Nat.add_zero]
          refine ⟨fun h => ?_, fun e h => ?_, fun _ hcnt => absurd hcnt hc⟩
          · rw [hex] at h; exact absurd h (by simp)
          · rw [hex] at h; exact absurd h (by simp)
        | succ k =>
          simp only [List.length_cons, Nat.succ_lt_succ_iff] at hk
          simp only [List.getD_cons_succ] at hs
          have hstep := ih (idx + 1) (GerritClient.processPage count (P idx)).count k s hk hs
          have hpg : idx + (k + 1) = idx + 1 + k := by omega
          rw [hpg]
          simp only [List.length_cons]
          refine ⟨fun h => ?_, fun e h => ?_, fun h hcnt => ?_⟩
          · obtain ⟨ho, hl⟩ := hstep.1 h
            exact ⟨ho, by omega⟩
          · obtain ⟨ho, hl⟩ := hstep.2.1 e h
            exact ⟨ho, by omega⟩
          · obtain ⟨ho, hl⟩ := hstep.2.2 h hcnt
            exact ⟨ho, by omega⟩
    · rw [runLoop_step_finished P q fuel idx count hex] at hk hs ⊢
      simp only [List.length_singleton, Nat.lt_one_iff] at hk
      subst hk
      simp only [List.getD_cons_zero] at hs
      subst hs
      simp only [Nat.add_zero]
      refine ⟨fun _ => ⟨trivial, by simp⟩, fun e h => absurd (hex ▸ h) (by simp),
        fun h _ => absurd (hex ▸ h) (by simp)⟩
    · rw [runLoop_step_error P q fuel idx count e hex] at hk hs ⊢
      simp only [List.length_singleton, Nat.lt_one_iff] at hk
      subst hk
      simp only [List.getD_cons_zero] at hs
      subst hs
      simp only [Nat.add_zero]
      refine ⟨fun h => absurd (hex ▸ h) (by simp), fun e' h => ?_, fun h _ => absurd (hex ▸ h) (by simp)⟩
      rw [hex] at h
      cases h
      exact ⟨rfl, by simp⟩

theorem partialSums_mono (f : Nat → Int) (hf : ∀ i, 0 ≤ f i) :
    ∀ j k : Nat, j ≤ k →
      ((List.range j).map f).sum ≤ ((List.range k).map f).sum := by
  intro j k hjk
  induction k, hjk using Nat.le_induction with
  | base => exact le_refl _
  | succ k hk ih =>
    rw [List.range_succ, List.map_append, List.sum_append]
    have := hf k
    simp only [List.map_cons, List.map_nil, List.sum_cons, List.sum_nil]
    linarith

theorem runLoop_good (P : Nat → List LineResult) (q : String)
    (hg : ∀ k, ∀ l ∈ P k, goodLine l = true) :
    ∀ (fuel idx : Nat) (count : Int),
      (GerritClient.runLoop P q fuel idx count).outcome ≠ .pageError .keyError ∧
      (GerritClient.runLoop P q fuel idx count).outcome ≠ .pageError .typeError := by
  intro fuel
  induction fuel with
  | zero => intro idx count; simp [GerritClient.runLoop]
  | succ fuel ih =>
    intro idx count
    rcases hex : (GerritClient.processPage count (P idx)).exit with _ | _ | e
    · by_cases hc : (GerritClient.processPage count (P idx)).count = count
      · rw [runLoop_step_stop P q fuel idx count hex hc]
        simp
      · rw [runLoop_step_next P q fuel idx count hex hc]
        exact ih (idx + 1) (GerritClient.processPage count (P idx)).count
    · rw [runLoop_step_finished P q fuel idx count hex]
      simp
    · rw [runLoop_step_error P q fuel idx count e hex]
      have hpg := processPage_good (P idx) (hg idx) count
      rw [hex] at hpg
      constructor
      · intro hco
        cases hco
        exact hpg.1 rfl
      · intro hco
        cases hco
        exact hpg.2 rfl

theorem runLoop_async_eq (P : Nat → List LineResult) (q : String) :
    ∀ (fuel idx : Nat) (count : Int),
      GerritAsyncClient.runLoop P q fuel idx count =
        GerritClient.runLoop P q fuel idx count := by
  intro fuel
  induction fuel with
  | zero => intro idx count; rfl
  | succ fuel ih =>
    intro idx count
    simp only [GerritAsyncClient.runLoop, GerritClient.runLoop, processPage_async_eq, ih]

theorem processPage_stop_trailer (t : Value) (suf : List LineResult) (count : Int)
    (ht : isStats t = true) (hm : (moreChangesVal t).truthy = false) :
    GerritClient.processPage count (.ok t :: suf) = ⟨[], count, .finished⟩ := by
  simp [GerritClient.processPage, load_patchset, ht, hm]

theorem processPage_malformed_head (suf : List LineResult) (count : Int) :
    GerritClient.processPage count (.malformed :: suf) =
      ⟨[], count, .error .malformedRecord⟩ := rfl

theorem processPage_missing_rowCount (t : Value) (suf : List LineResult) (count : Int)
    (ht : isStats t = true) (hm : (moreChangesVal t).truthy = true)
    (hr : t.get? "rowCount" = none) :
    GerritClient.processPage count (.ok t :: suf) = ⟨[], count, .error .keyError⟩ := by
  simp [GerritClient.processPage, load_patchset, ht, hm, hr]

theorem moreChanges_absent_or_false (t : Value)
    (hm : t.get? "moreChanges" = none ∨ t.get? "moreChanges" = some (.bool false)) :
    (moreChangesVal t).truthy = false := by
  rcases hm with hm | hm <;> simp [moreChangesVal, hm, Value.truthy]

/-! ### Lemmas about the comment extractor and identity filter -/

theorem extractLoop_none_filter (comments : List Value)
    (hwf : ∀ c ∈ comments, wfComment c = true) :
    extractLoop none comments =
      (comments.filter (fun c => !hasTrivialRebase c), none) := by
  induction comments with
  | nil => rfl
  | cons c rest ih =>
    have hc := hwf c (List.mem_cons_self c rest)
    have ht : ∀ x ∈ rest, wfComment x = true :=
      fun x hx => hwf x (List.mem_cons_of_mem c hx)
    rw [wfComment, Bool.and_eq_true] at hc
    obtain ⟨h1, h2⟩ := hc
    cases hrev : c.get? "reviewer" with
    | none => rw [hrev] at h1; simp at h1
    | some rev =>
      cases hmsg : c.get? "message" with
      | none => rw [hmsg] at h2; simp at h2
      | some v =>
        rw [hmsg] at h2
        cases v with
        | null => exact absurd h2 (by simp)
        | bool b => exact absurd h2 (by simp)
        | int n => exact absurd h2 (by simp)
        | arr elems => exact absurd h2 (by simp)
        | obj fields => exact absurd h2 (by simp)
        | str m =>
        have hum : user_match rev none = true := rfl
        simp only [extractLoop, hrev, hmsg, hum, if_true]
        by_cases hmark : strContainsSub trivialRebaseMarker m = true
        · rw [if_pos hmark, ih ht]
          have hh : hasTrivialRebase c = true := by
            rw [hasTrivialRebase, hmsg]
            exact hmark
          simp [List.filter_cons, hh]
        · rw [if_neg hmark, ih ht]
          have hh : hasTrivialRebase c = false := by
            rw [hasTrivialRebase, hmsg]
            simpa using hmark
          simp [List.filter_cons, hh]

theorem extract_comments_owner_skip (p : Value) (s : String) (o : Value)
    (how : p.get? "owner" = some o) (hum : user_match o (some s) = true) :
    extract_comments p (some s) = ([], none) := by
  simp only [extract_comments]
  cases hcm : p.get? "comments" with
  | none => rfl
  | some cs => simp [how, hum]

theorem user_match_email (o : Value) (s : String)
    (hat : s.toList.contains '@' = true)
    (he : o.get? "email" = some (.str s)) :
    user_match o (some s) = true := by
  show field_match o s (if s.toList.contains '@' then "email" else "username") = true
  rw [if_pos hat, field_match, he]
  simp [valEqStr]

theorem queryCmd_template (q : String) (c : Int) :
    queryCmd q c =
      "gerrit query \"" ++ q ++ "\" --comments --format=JSON --start=" ++ toString c := by
  simp only [queryCmd, String.intercalate, String.intercalate.go]
  have h : ∀ a b : String, a ++ b = ⟨a.data ++ b.data⟩ := fun a b => rfl
  apply String.ext
  simp [h]

/-! ### Claim theorems -/

/-- C1: for every query, when a decoded record of a page's output stream is a
control record (`type = "stats"`) whose `moreChanges` field is false or
absent, `comments_query` terminates the entire record sequence immediately
and normally (outcome `finished`, the generator's `return`): no record
after the trailer is yielded and no further page is fetched.  The first
conjunct states this for a trailer on any page the run reaches; the second
gives the full trace when the trailer sits on the first page — in
particular exactly one page (`--start=0`) is fetched when the first page's
trailer reports `moreChanges=false`. -/
theorem C1_trailer_terminates (P : Nat → List LineResult) (Q : List (String × String))
    (pre suf : List LineResult) (t : Value)
    (ht : isStats t = true)
    (hm : t.get? "moreChanges" = none ∨ t.get? "moreChanges" = some (.bool false)) :
    (∀ (fuel k : Nat) (s : Int),
        k < (GerritClient.comments_query P Q fuel).starts.length →
        (GerritClient.comments_query P Q fuel).starts.getD k 0 = s →
        P k = pre ++ .ok t :: suf →
        (GerritClient.processPage s pre).exit = .exhausted →
        (GerritClient.comments_query P Q fuel).outcome = .finished ∧
        (GerritClient.comments_query P Q fuel).starts.length = k + 1)
    ∧ (∀ fuel : Nat,
        P 0 = pre ++ .ok t :: suf →
        (GerritClient.processPage 0 pre).exit = .exhausted →
        GerritClient.comments_query P Q (fuel + 1) =
          ⟨[0], [queryCmd (qStr Q) 0],
           (GerritClient.processPage 0 pre).yielded, .finished⟩) := by
  have hmt := moreChanges_absent_or_false t hm
  constructor
  · intro fuel k s hk hs hp hexh
    have happ := processPage_append pre (.ok t :: suf) s hexh
    have hfin : (GerritClient.processPage s (P k)).exit = .finished := by
      rw [hp, happ, processPage_stop_trailer t suf _ ht hmt]
    exact (runLoop_terminal P (qStr Q) fuel 0 0 k s hk hs).1
      (by rw [Nat.zero_add]; exact hfin)
  · intro fuel hp hexh
    have happ := processPage_append pre (.ok t :: suf) 0 hexh
    have hpp : GerritClient.processPage 0 (P 0) =
        ⟨(GerritClient.processPage 0 pre).yielded,
         (GerritClient.processPage 0 pre).count, .finished⟩ := by
      rw [hp, happ, processPage_stop_trailer t suf _ ht hmt]
      simp
    show GerritClient.runLoop P (qStr Q) (fuel + 1) 0 0 = _
    rw [runLoop_step_finished P (qStr Q) fuel 0 0 (by rw [hpp]), hpp]

/-- C1 witness: a first page of one content record followed by a trailer
with `moreChanges=false` fetches exactly one page, yields exactly that
record, and finishes normally. -/
theorem C1_trailer_terminates_witness :
    GerritClient.comments_query pagesFinish [("project", "openstack/heat")] 1 =
      ⟨[0], [queryCmd (qStr [("project", "openstack/heat")]) 0], [recUrl1], .finished⟩ :=
  (C1_trailer_terminates pagesFinish [("project", "openstack/heat")]
      [.ok recUrl1] [] trailerStop rfl (Or.inr rfl)).2 0 rfl rfl

/-- C2: the offset counter of `comments_query` starts at 0 and advances
exactly by the `rowCount` of each control record seen with truthy
`moreChanges` (`seenRowCounts` collects exactly those values, in traversal
order), so the `--start` offset used for page k+1 is the cumulative sum of
the trailer `rowCount` values of pages 1..k (first conjunct; `k = 0` gives
the starting offset 0).  Under the data-model invariant that every
`rowCount` seen is a nonnegative integer, the offset only ever increases
(second conjunct). -/
theorem C2_offset_cumulative (P : Nat → List LineResult) (Q : List (String × String))
    (fuel : Nat)
    (hnn : ∀ i, ∀ x ∈ seenRowCounts (P i), (0 : Int) ≤ x) :
    (∀ k : Nat, k < (GerritClient.comments_query P Q fuel).starts.length →
        (GerritClient.comments_query P Q fuel).starts.getD k 0 =
          ((List.range k).map fun i => (seenRowCounts (P i)).sum).sum)
    ∧ (∀ j k : Nat, j ≤ k →
        k < (GerritClient.comments_query P Q fuel).starts.length →
        (GerritClient.comments_query P Q fuel).starts.getD j 0 ≤
          (GerritClient.comments_query P Q fuel).starts.getD k 0) := by
  have hform : ∀ k : Nat, k < (GerritClient.comments_query P Q fuel).starts.length →
      (GerritClient.comments_query P Q fuel).starts.getD k 0 =
        ((List.range k).map fun i => (seenRowCounts (P i)).sum).sum := by
    intro k hk
    have h := runLoop_starts_formula P (qStr Q) fuel 0 0 k hk
    simpa using h
  refine ⟨hform, fun j k hjk hk => ?_⟩
  have hj : j < (GerritClient.comments_query P Q fuel).starts.length :=
    lt_of_le_of_lt hjk hk
  rw [hform j hj, hform k hk]
  exact partialSums_mono _ (fun i => List.sum_nonneg (hnn i)) j k hjk

/-- C2 witness: with every page reporting `rowCount=1, moreChanges=true`,
the second page's offset is the sum of the first page's row counts and the
offsets are nondecreasing. -/
theorem C2_offset_cumulative_witness :
    (GerritClient.comments_query pagesMore [("reviewer", "alice")] 2).starts.getD 1 0 =
      ((List.range 1).map fun i => (seenRowCounts (pagesMore i)).sum).sum ∧
    (GerritClient.comments_query pagesMore [("reviewer", "alice")] 2).starts.getD 0 0 ≤
      (GerritClient.comments_query pagesMore [("reviewer", "alice")] 2).starts.getD 1 0 := by
  have h := C2_offset_cumulative pagesMore [("reviewer", "alice")] 2
    (by
      intro i
      exact (by decide :
        ∀ x ∈ seenRowCounts [LineResult.ok recUrl1, LineResult.ok trailerMore1],
          (0 : Int) ≤ x))
  exact ⟨h.1 1 (by decide), h.2 0 1 (by decide) (by decide)⟩

/-- C3: after a page's line stream is exhausted, if the offset counter did
not advance during that page (which covers a trailer reporting
`moreChanges=true` with `rowCount=0` and a page with no trailer at all),
`comments_query` terminates the sequence with the `break` (outcome
`stopped`, a normal end) rather than fetching another page: that page is
the last one. -/
theorem C3_no_progress_stops (P : Nat → List LineResult) (Q : List (String × String))
    (fuel k : Nat) (s : Int)
    (hk : k < (GerritClient.comments_query P Q fuel).starts.length)
    (hs : (GerritClient.comments_query P Q fuel).starts.getD k 0 = s)
    (hex : (GerritClient.processPage s (P k)).exit = .exhausted)
    (hcnt : (GerritClient.processPage s (P k)).count = s) :
    (GerritClient.comments_query P Q fuel).outcome = .stopped ∧
    (GerritClient.comments_query P Q fuel).starts.length = k + 1 :=
  (runLoop_terminal P (qStr Q) fuel 0 0 k s hk hs).2.2
    (by rw [Nat.zero_add]; exact hex) (by rw [Nat.zero_add]; exact hcnt)

/-- C3 witness: a first page with one content record and no trailer leaves
the counter unchanged, so the run stops after exactly one page even with
fuel for more. -/
theorem C3_no_progress_stops_witness :
    (GerritClient.comments_query pagesNoTrailer [("reviewer", "alice")] 3).outcome =
      .stopped ∧
    (GerritClient.comments_query pagesNoTrailer [("reviewer", "alice")] 3).starts.length =
      0 + 1 :=
  C3_no_progress_stops pagesNoTrailer [("reviewer", "alice")] 3 0 0
    (by decide) rfl rfl rfl

/-- C4 counterexample: the claim says `user_match` returns true for every
user when the filter string is empty — but the code treats only `None`
(absent) as match-all.  Concretely, the empty filter string against a user
whose `username` is `"alice"`-like (`bobUser`, username `"bob"`) selects
the `username` field and compares it to `""`, which fails, so `user_match`
returns false where the claim requires true. -/
theorem C4_empty_filter_counterexample : user_match bobUser (some "") = false := rfl

/-- C4 as amended: `user_match` returns true for every user when the filter
is absent (`None`); when the filter is a string — even the empty string —
it compares the filter for equality against the user's `email` field if
the filter contains `'@'` and against the `username` field otherwise
(`selectedFieldMatch`, written from the amended claim's words), and in
particular returns false whenever the selected field is missing from the
user. -/
theorem C4_user_match_amended (u : Value) (s : String) :
    user_match u none = true ∧
    user_match u (some s) = selectedFieldMatch u s ∧
    (u.get? (if s.toList.contains '@' then "email" else "username") = none →
      user_match u (some s) = false) := by
  refine ⟨rfl, rfl, fun h => ?_⟩
  show field_match u s (if s.toList.contains '@' then "email" else "username") = false
  rw [field_match, h]

/-- C4 witness: a filter containing `'@'` selects the missing `email` field
of `bobUser`, so the match fails. -/
theorem C4_user_match_amended_witness : user_match bobUser (some "a@example.com") = false :=
  (C4_user_match_amended bobUser "a@example.com").2.2 rfl

/-- C5: for every record whose comments are data-model-shaped (each has a
`reviewer` field and a string `message`), `extract_comments record None`
yields exactly the comments whose message does not contain the literal
substring `"Gerrit trivial rebase"`, in the original order and regardless
of the reviewer identities (the filter keeps order and never looks at the
reviewer when the author filter is absent); a record with no `comments`
field yields the empty sequence. -/
theorem C5_extract_without_filter (p pBare : Value) (xs : List Value)
    (hcm : p.get? "comments" = some (.arr xs))
    (hwf : ∀ c ∈ xs, wfComment c = true)
    (hnc : pBare.get? "comments" = none) :
    extract_comments p none = (xs.filter fun c => !hasTrivialRebase c, none) ∧
    extract_comments pBare none = ([], none) := by
  constructor
  · simp only [extract_comments, hcm, iterComments]
    exact extractLoop_none_filter xs hwf
  · simp only [extract_comments, hnc]

/-- C5 witness: on a patchset with a substantive comment and a
trivial-rebase comment, the absent filter yields exactly the substantive
one; a patchset without comments yields nothing. -/
theorem C5_extract_without_filter_witness :
    extract_comments patchsetSample none =
      ([commentNice, commentRebase].filter fun c => !hasTrivialRebase c, none) ∧
    extract_comments patchsetBare none = ([], none) :=
  C5_extract_without_filter patchsetSample patchsetBare [commentNice, commentRebase]
    rfl (by decide) rfl

/-- C6: for every record and every non-empty author filter matched by the
record's owner, `extract_comments` yields zero comments (own patchsets are
skipped), even if comments on the record have matching reviewers — the
comment loop is never entered.  The second conjunct is the claim's "in
particular" case: a filter containing `'@'` equal to the owner's `email`
field. -/
theorem C6_owner_skip (p : Value) (s : String) (o : Value) :
    (s ≠ "" → p.get? "owner" = some o → user_match o (some s) = true →
      extract_comments p (some s) = ([], none)) ∧
    (s.toList.contains '@' = true → p.get? "owner" = some o →
      o.get? "email" = some (.str s) →
      extract_comments p (some s) = ([], none)) := by
  constructor
  · intro _ how hum
    exact extract_comments_owner_skip p s o how hum
  · intro hat how he
    exact extract_comments_owner_skip p s o how (user_match_email o s hat he)

/-- C6 witness: the filter `"alice@example.com"` equals the owner's email
on `patchsetSample`, so extraction yields nothing although the patchset
has comments. -/
theorem C6_owner_skip_witness :
    extract_comments patchsetSample (some "alice@example.com") = ([], none) ∧
    extract_comments patchsetSample (some "alice@example.com") = ([], none) :=
  ⟨(C6_owner_skip patchsetSample "alice@example.com" aliceUser).1 (by decide) rfl rfl,
   (C6_owner_skip patchsetSample "alice@example.com" aliceUser).2 rfl rfl rfl⟩

/-- C7: the remote command string constructed by `comments_query` is exactly
`gerrit query` followed by the `key:value` terms joined by single spaces
and quoted together as one argument, followed by `--comments`,
`--format=JSON`, and `--start=` with the current offset counter, in that
order: the template equality (first conjunct), the query-string shape
(second conjunct), and the fact that every command in a run's trace is the
template applied to that page's start offset (third conjunct). -/
theorem C7_command_shape (Q : List (String × String)) (c : Int) :
    queryCmd (qStr Q) c =
      "gerrit query \"" ++ qStr Q ++ "\" --comments --format=JSON --start=" ++ toString c
    ∧ qStr Q = String.intercalate " " (Q.map fun param => param.1 ++ ":" ++ param.2)
    ∧ ∀ (P : Nat → List LineResult) (fuel : Nat),
        (GerritClient.comments_query P Q fuel).cmds =
          (GerritClient.comments_query P Q fuel).starts.map (queryCmd (qStr Q)) := by
  refine ⟨queryCmd_template (qStr Q) c, ?_, fun P fuel => runLoop_cmds_eq P (qStr Q) fuel 0 0⟩
  rw [qStr]
  congr 1

/-- C8: a line of page output that is not valid structured data makes
`load_patchset` fail, and that error propagates out of `comments_query` to
the consumer: the driver never skips a malformed line and continues, and
yields no further records from the run after the malformed line.  The
first conjunct states the outcome and the end of pagination for a
malformed line on any page the run reaches; the second gives the full
trace when it sits on the first page (only the records decoded before the
malformed line are yielded, and only one command was issued). -/
theorem C8_malformed_fatal (P : Nat → List LineResult) (Q : List (String × String))
    (pre suf : List LineResult) :
    (∀ (fuel k : Nat) (s : Int),
        k < (GerritClient.comments_query P Q fuel).starts.length →
        (GerritClient.comments_query P Q fuel).starts.getD k 0 = s →
        P k = pre ++ .malformed :: suf →
        (GerritClient.processPage s pre).exit = .exhausted →
        (GerritClient.comments_query P Q fuel).outcome = .pageError .malformedRecord ∧
        (GerritClient.comments_query P Q fuel).starts.length = k + 1)
    ∧ (∀ fuel : Nat,
        P 0 = pre ++ .malformed :: suf →
        (GerritClient.processPage 0 pre).exit = .exhausted →
        GerritClient.comments_query P Q (fuel + 1) =
          ⟨[0], [queryCmd (qStr Q) 0],
           (GerritClient.processPage 0 pre).yielded, .pageError .malformedRecord⟩) := by
  constructor
  · intro fuel k s hk hs hp hexh
    have happ := processPage_append pre (.malformed :: suf) s hexh
    have herr : (GerritClient.processPage s (P k)).exit = .error .malformedRecord := by
      rw [hp, happ, processPage_malformed_head]
    exact (runLoop_terminal P (qStr Q) fuel 0 0 k s hk hs).2.1 .malformedRecord
      (by rw [Nat.zero_add]; exact herr)
  · intro fuel hp hexh
    have happ := processPage_append pre (.malformed :: suf) 0 hexh
    have hpp : GerritClient.processPage 0 (P 0) =
        ⟨(GerritClient.processPage 0 pre).yielded,
         (GerritClient.processPage 0 pre).count, .error .malformedRecord⟩ := by
      rw [hp, happ, processPage_malformed_head]
      simp
    show GerritClient.runLoop P (qStr Q) (fuel + 1) 0 0 = _
    rw [runLoop_step_error P (qStr Q) fuel 0 0 .malformedRecord (by rw [hpp]), hpp]

/-- C8 witness: a first page whose second line fails to decode yields the
record before it, issues one command, and ends with the decode error. -/
theorem C8_malformed_fatal_witness :
    GerritClient.comments_query pagesBad [("reviewer", "alice")] 1 =
      ⟨[0], [queryCmd (qStr [("reviewer", "alice")]) 0], [recUrl1],
       .pageError .malformedRecord⟩ :=
  (C8_malformed_fatal pagesBad [("reviewer", "alice")] [.ok recUrl1] []).2 0 rfl rfl

/-- C9: the synchronous `GerritClient.comments_query` and the asynchronous
`GerritAsyncClient.comments_query` implement the same protocol: given the
same query parameters and the same per-page line streams, the full traces
coincide — same yielded records, same command strings, same start offsets,
same termination. -/
theorem C9_sync_async_agree (P : Nat → List LineResult) (Q : List (String × String))
    (fuel : Nat) :
    GerritAsyncClient.comments_query P Q fuel = GerritClient.comments_query P Q fuel :=
  runLoop_async_eq P (qStr Q) fuel 0 0

/-- C10: `comments_query` reads `record['rowCount']` without a guard after a
control record with truthy `moreChanges`.  First conjunct: under the
precondition that every such control record in the streams carries an
integer `rowCount` field (`goodLine`), the lookup never fails — the run
never ends in the `KeyError` or `TypeError` outcome.  Second conjunct: for
a trailer with truthy `moreChanges` but no `rowCount` field, the driver
raises `KeyError` instead of yielding, continuing, or terminating
normally (full trace for a first-page trailer: nothing after it is
yielded and no further page is fetched). -/
theorem C10_rowCount_guard :
    (∀ (P : Nat → List LineResult) (Q : List (String × String)) (fuel : Nat),
        (∀ k, ∀ l ∈ P k, goodLine l = true) →
        (GerritClient.comments_query P Q fuel).outcome ≠ .pageError .keyError ∧
        (GerritClient.comments_query P Q fuel).outcome ≠ .pageError .typeError)
    ∧ (∀ (P : Nat → List LineResult) (Q : List (String × String)) (fuel : Nat)
         (pre suf : List LineResult) (t : Value),
        isStats t = true →
        (moreChangesVal t).truthy = true →
        t.get? "rowCount" = none →
        P 0 = pre ++ .ok t :: suf →
        (GerritClient.processPage 0 pre).exit = .exhausted →
        GerritClient.comments_query P Q (fuel + 1) =
          ⟨[0], [queryCmd (qStr Q) 0],
           (GerritClient.processPage 0 pre).yielded, .pageError .keyError⟩) := by
  constructor
  · intro P Q fuel hg
    exact runLoop_good P (qStr Q) hg fuel 0 0
  · intro P Q fuel pre suf t ht hm hr hp hexh
    have happ := processPage_append pre (.ok t :: suf) 0 hexh
    have hpp : GerritClient.processPage 0 (P 0) =
        ⟨(GerritClient.processPage 0 pre).yielded,
         (GerritClient.processPage 0 pre).count, .error .keyError⟩ := by
      rw [hp, happ, processPage_missing_rowCount t suf _ ht hm hr]
      simp
    show GerritClient.runLoop P (qStr Q) (fuel + 1) 0 0 = _
    rw [runLoop_step_error P (qStr Q) fuel 0 0 .keyError (by rw [hpp]), hpp]

/-- C10 witness: well-shaped trailers never produce a lookup failure, and a
trailer with `moreChanges=true` and no `rowCount` field raises `KeyError`
after yielding only the records before it. -/
theorem C10_rowCount_guard_witness :
    (GerritClient.comments_query pagesFinish [("reviewer", "alice")] 2).outcome ≠
      .pageError .keyError ∧
    GerritClient.comments_query pagesNoRow [("reviewer", "alice")] 1 =
      ⟨[0], [queryCmd (qStr [("reviewer", "alice")]) 0], [recUrl1],
       .pageError .keyError⟩ :=
  ⟨(C10_rowCount_guard.1 pagesFinish [("reviewer", "alice")] 2
      (by
        intro k
        exact (by decide :
          ∀ l ∈ [LineResult.ok recUrl1, LineResult.ok trailerStop], goodLine l = true))).1,
   C10_rowCount_guard.2 pagesNoRow [("reviewer", "alice")] 0 [.ok recUrl1] []
     trailerNoRow rfl rfl rfl rfl rfl⟩
